import Mathlib

/-!
# gocache-elasticsearch: the expiring document cache adapter

A shallow embedding of `gocache_elasticsearch.go`.

* Go `error` values are identified with their message.
* `time.Time` is an integer count of nanoseconds, `time.Duration` an integer
  count of nanoseconds in the signed 64-bit range; `Time.Sub` saturates as
  the Go library documents.
* Go strings are Unicode text: a Go string that is valid UTF-8 is the text
  it holds. Keys are taken to be valid UTF-8. A value that is not valid
  UTF-8 reaches the backend through `json.Marshal` alone, which writes the
  text `jsonText` of its bytes, and is represented by that text.
* The Elasticsearch client, the JSON codec and the clock are the environment
  of the adapter: every adapter operation takes the client (a record of
  state-passing request functions), the codec outcomes and the instant read by
  `time.Now()` as arguments.
* A function call has one of three outcomes: it returns, it blocks forever
  (a `sync.WaitGroup` that is never released), or the process panics.
* Each `go func ... ; wg.Wait()` pair is one goroutine that the caller joins
  at once, so the goroutine body is run in place and hands back the
  WaitGroup counter it leaves behind; `Wait` returns exactly when that
  counter is zero.
-/

namespace GoCache

/-! ## Go runtime values -/

/-- Go `error`, identified with the text of `err.Error()`. -/
structure GoError where
  msg : String
deriving DecidableEq, Repr

/-- How a call ends: it returns a value, it never returns, or it panics. -/
inductive Outcome (α : Type) where
  | returned (a : α)
  | blocked
  | panicked
deriving DecidableEq, Repr

/-- Instants, in nanoseconds. -/
abbrev Time := Int

/-- Go `time.Duration`: nanoseconds as a signed 64-bit integer. -/
abbrev Duration := Int

/-- Largest `time.Duration`, `1<<63 - 1`. -/
def maxDuration : Duration := 9223372036854775807

/-- Smallest `time.Duration`, `-1 << 63`. -/
def minDuration : Duration := -9223372036854775808

/-- Go `time.Second`. -/
def Second : Duration := 1000000000

/-- Go `t.Sub(u)`: the duration `t - u`, replaced by the maximum (minimum)
duration when it exceeds what a `Duration` can hold. -/
def Time.Sub (t u : Time) : Duration :=
  if t - u > maxDuration then maxDuration
  else if t - u < minDuration then minDuration
  else t - u

/-- `sync.WaitGroup`: its counter. -/
abbrev WaitGroup := Nat

/-- `wg.Add(n)`. -/
def WaitGroup.Add (wg : WaitGroup) (n : Nat) : WaitGroup := wg + n

/-- `wg.Done()`. -/
def WaitGroup.Done (wg : WaitGroup) : WaitGroup := wg - 1

/-- `wg.Wait()` once the only goroutine holding the group has ended: it
returns when the counter is zero and blocks forever otherwise. -/
def WaitGroup.Wait (wg : WaitGroup) : Outcome Unit :=
  if wg = 0 then .returned () else .blocked

/-! ## Data model (lines 20-72) -/

/-- The persisted cache entry. -/
structure documentObject where
  Key : String
  Value : String
  CreatedAt : Time
deriving DecidableEq, Repr

/-- One search hit; `Source` is a pointer and may be nil. -/
structure hit where
  Source : Option documentObject
deriving DecidableEq, Repr

/-- The `hits` object of a search response; `Hits` is a pointer to a slice. -/
structure hits where
  Hits : Option (List hit)
deriving DecidableEq, Repr

/-- The decoded search response. -/
structure response where
  Hits : hits
deriving DecidableEq, Repr

/-- The query body, `map[string]map[string]map[string]string`, as the list of
its entries. -/
abbrev Query := List (String × List (String × List (String × String)))

/-- What `er["error"]` is after a response body was decoded into a
`map[string]interface{}`: nil, a JSON object (with its `type` and `reason`
entries as `%s` prints them), or any other JSON value. -/
inductive ErrorField where
  | absent
  | object (errType reason : String)
  | other
deriving DecidableEq, Repr

/-- An `esapi.Response`: the status, and what each `Decode` of its body
yields (into a generic map, and into `response`). -/
structure Response where
  StatusCode : Nat
  Status : String
  decodeMap : Except GoError ErrorField
  decodeResponse : Except GoError response

/-- `res.IsError()`: the status code is above 299. -/
def Response.IsError (res : Response) : Bool := decide (res.StatusCode > 299)

/-- The Elasticsearch client over a backend state `σ`. Each request returns
`(res, err)` (as `Except`: a non-nil `err` comes with a nil `res`) and the
next backend state. -/
structure Client (σ : Type) where
  /-- `esapi.IndexRequest(Index, DocumentID, Body, Refresh).Do` -/
  Index : σ → String → String → documentObject → String → Except GoError Response × σ
  /-- `es.Search(WithIndex, WithBody, WithTrackTotalHits)` -/
  Search : σ → String → Query → Bool → Except GoError Response × σ
  /-- `es.DeleteByQuery(indices, body)` -/
  DeleteByQuery : σ → List String → Query → Except GoError Response × σ

/-- Outcomes of `encoding/json`: the error (nil when none) of marshalling a
document and of encoding a query. The encoded text is represented by the
value it encodes, which for a Unicode text is the text itself. -/
structure Codec where
  Marshal : documentObject → Option GoError
  Encode : Query → Option GoError

/-- The state an operation runs in: the backend and the process log. -/
structure World (σ : Type) where
  store : σ
  log : List String

/-- `log.Println(err)`. -/
def World.Println {σ : Type} (w : World σ) (line : String) : World σ :=
  { store := w.store, log := w.log ++ [line] }

/-- The world with the backend state replaced. -/
def World.withStore {σ : Type} (w : World σ) (s : σ) : World σ :=
  { store := s, log := w.log }

/-- `ElasticCacheConfig`: `Client` is a pointer and may be nil. -/
structure ElasticCacheConfig (σ : Type) where
  Client : Option (Client σ)
  Index : String
  ExpiresIn : Duration

/-- The adapter. -/
structure elasticCache (σ : Type) where
  Client : Client σ
  Index : String
  ExpiresIn : Duration

/-! ## Operations -/

/-- `NewElasticCache` (lines 28-48). -/
def NewElasticCache {σ : Type} (config : ElasticCacheConfig σ) : Outcome (elasticCache σ) :=
  match config.Client with
  | none => .panicked
  | some client =>
    let index := if config.Index = "" then "gocache" else config.Index
    let expiresIn := if config.ExpiresIn ≤ 0 then 3600 * Second else config.ExpiresIn
    .returned { Client := client, Index := index, ExpiresIn := expiresIn }

/-- `fmt.Errorf("[%s] %s: %s", status, type, reason)`. -/
def formatError (status errType reason : String) : GoError :=
  ⟨"[" ++ status ++ "] " ++ errType ++ ": " ++ reason⟩

/-- The query `"query": "match": "key": key` of `Clear` and `find`. -/
def matchQuery (key : String) : Query := [("query", [("match", [("key", key)])])]

/-- The query `"query": "prefix": "key": keyPrefix` of `ClearPrefix`. -/
def prefixQuery (keyPrefix : String) : Query := [("query", [("prefix", [("key", keyPrefix)])])]

/-- The query `"query": "match_all": (empty)` of `ClearAll`. -/
def matchAllQuery : Query := [("query", [("match_all", [])])]

/-- The goroutine of `deleteByQuery` (lines 233-261): the WaitGroup counter
it leaves, or a panic. The three early `return`s leave the counter as it
was; `wg.Done()` is reached on the other paths. -/
def deleteByQueryGo {σ : Type} (e : elasticCache σ) (j : Codec) (w : World σ)
    (query : Query) (wg : WaitGroup) : Outcome WaitGroup × World σ :=
  match j.Encode query with
  | some err => (.returned wg, w.Println err.msg)
  | none =>
    match e.Client.DeleteByQuery w.store [e.Index] query with
    | (.error err, s) => (.returned wg, (w.withStore s).Println err.msg)
    | (.ok res, s) =>
      if res.IsError then
        match res.decodeMap with
        | .error err => (.returned wg, (w.withStore s).Println err.msg)
        | .ok .absent => (.returned wg.Done, w.withStore s)
        | .ok (.object errType reason) =>
          (.returned wg.Done,
            (w.withStore s).Println (formatError res.Status errType reason).msg)
        | .ok .other => (.panicked, w.withStore s)
      else (.returned wg.Done, w.withStore s)

/-- `deleteByQuery` (lines 229-265): start the goroutine, wait, return nil. -/
def elasticCache.deleteByQuery {σ : Type} (e : elasticCache σ) (j : Codec) (w : World σ)
    (query : Query) : Outcome (Option GoError) × World σ :=
  let wg : WaitGroup := WaitGroup.Add 0 1
  match deleteByQueryGo e j w query wg with
  | (.returned wg1, w1) =>
    match WaitGroup.Wait wg1 with
    | .returned _ => (.returned none, w1)
    | .blocked => (.blocked, w1)
    | .panicked => (.panicked, w1)
  | (.blocked, w1) => (.blocked, w1)
  | (.panicked, w1) => (.panicked, w1)

/-- `Clear` (lines 126-136). -/
def elasticCache.Clear {σ : Type} (e : elasticCache σ) (j : Codec) (w : World σ)
    (key : String) : Outcome (Option GoError) × World σ :=
  e.deleteByQuery j w (matchQuery key)

/-- `ClearPrefix` (lines 138-148). -/
def elasticCache.ClearPrefix {σ : Type} (e : elasticCache σ) (j : Codec) (w : World σ)
    (keyPrefix : String) : Outcome (Option GoError) × World σ :=
  e.deleteByQuery j w (prefixQuery keyPrefix)

/-- `ClearAll` (lines 150-158). -/
def elasticCache.ClearAll {σ : Type} (e : elasticCache σ) (j : Codec) (w : World σ) :
    Outcome (Option GoError) × World σ :=
  e.deleteByQuery j w matchAllQuery

/-- `Set` (lines 74-103), at the instant `now` read by `time.Now()`. When
the request fails, `res` is nil and `defer res.Body.Close()` panics. -/
def elasticCache.Set {σ : Type} (e : elasticCache σ) (j : Codec) (now : Time) (w : World σ)
    (key value : String) : Outcome (Option GoError) × World σ :=
  let data : documentObject := { Key := key, Value := value, CreatedAt := now }
  match j.Marshal data with
  | some err => (.returned (some err), w)
  | none =>
    let wg : WaitGroup := WaitGroup.Add 0 1
    match e.Client.Index w.store e.Index key data "true" with
    | (.error err, s) => (.panicked, (w.withStore s).Println err.msg)
    | (.ok _, s) =>
      match WaitGroup.Wait wg.Done with
      | .returned _ => (.returned none, w.withStore s)
      | .blocked => (.blocked, w.withStore s)
      | .panicked => (.panicked, w.withStore s)

/-- The tail of `find` (lines 214-226): decode the body into `response` and
pick the first hit. -/
def findDecode {σ : Type} (res : Response) (w : World σ) :
    Outcome (Option documentObject × Option GoError) × World σ :=
  match res.decodeResponse with
  | .error err => (.returned (none, some err), w)
  | .ok r =>
    match r.Hits.Hits with
    | some (result :: _) =>
      match result.Source with
      | some source => (.returned (some source, none), w)
      | none => (.returned (none, some ⟨"Not found"⟩), w)
    | _ => (.returned (none, some ⟨"Not found"⟩), w)

/-- `find` (lines 176-227). -/
def elasticCache.find {σ : Type} (e : elasticCache σ) (j : Codec) (w : World σ)
    (key : String) : Outcome (Option documentObject × Option GoError) × World σ :=
  let query := matchQuery key
  match j.Encode query with
  | some err => (.returned (none, some err), w)
  | none =>
    match e.Client.Search w.store e.Index query true with
    | (.error err, s) => (.returned (none, some err), w.withStore s)
    | (.ok res, s) =>
      if res.IsError then
        match res.decodeMap with
        | .error err => (.returned (none, some err), w.withStore s)
        | .ok (.object errType reason) =>
          (.returned (none, some (formatError res.Status errType reason)), w.withStore s)
        | .ok .other => (.panicked, w.withStore s)
        | .ok .absent => findDecode res (w.withStore s)
      else findDecode res (w.withStore s)

/-- `isExpired` (lines 159-174), at the instant `now` read by `time.Now()`.
The goroutine calls `e.Clear(key)` and then `wg.Done()`. -/
def elasticCache.isExpired {σ : Type} (e : elasticCache σ) (j : Codec) (now : Time)
    (w : World σ) (source : Option documentObject) : Outcome Bool × World σ :=
  match source with
  | none => (.returned true, w)
  | some src =>
    let expired : Bool := decide (Time.Sub now src.CreatedAt > e.ExpiresIn)
    if expired then
      let wg : WaitGroup := WaitGroup.Add 0 1
      match e.Clear j w src.Key with
      | (.returned _, w1) =>
        match WaitGroup.Wait wg.Done with
        | .returned _ => (.returned expired, w1)
        | .blocked => (.blocked, w1)
        | .panicked => (.panicked, w1)
      | (.blocked, w1) => (.blocked, w1)
      | (.panicked, w1) => (.panicked, w1)
    else (.returned expired, w)

/-- `Get` (lines 105-116). -/
def elasticCache.Get {σ : Type} (e : elasticCache σ) (j : Codec) (now : Time) (w : World σ)
    (key : String) : Outcome (String × Option GoError) × World σ :=
  match e.find j w key with
  | (.returned (_, some err), w1) => (.returned ("", some err), w1)
  | (.returned (result, none), w1) =>
    match e.isExpired j now w1 result with
    | (.returned true, w2) => (.returned ("", some ⟨"Cache expired"⟩), w2)
    | (.returned false, w2) =>
      match result with
      | some source => (.returned (source.Value, none), w2)
      | none => (.panicked, w2)
    | (.blocked, w2) => (.blocked, w2)
    | (.panicked, w2) => (.panicked, w2)
  | (.blocked, w1) => (.blocked, w1)
  | (.panicked, w1) => (.panicked, w1)

/-- `IsValid` (lines 118-124). -/
def elasticCache.IsValid {σ : Type} (e : elasticCache σ) (j : Codec) (now : Time) (w : World σ)
    (key : String) : Outcome Bool × World σ :=
  match e.Get j now w key with
  | (.returned (result, err), w1) =>
    if err = none ∧ result ≠ "" then (.returned true, w1) else (.returned false, w1)
  | (.blocked, w1) => (.blocked, w1)
  | (.panicked, w1) => (.panicked, w1)

/-! ## A reference backend

An index service that honours every request at once: `Index` replaces the
document stored under the identifier, a `match` query on `key` selects the
documents whose `key` field equals the text, a `prefix` query those whose
`key` field starts with it, `match_all` every document, and a deletion is
visible to the next search. Requests never fail in transport. This is the
store the round-trip and invalidation properties are stated on. -/

/-- A stored document: its index, its identifier and its `_source`. -/
structure StoredDoc where
  index : String
  id : String
  source : documentObject
deriving DecidableEq, Repr

/-- The documents held by the backend, oldest first. -/
abbrev Store := List StoredDoc

/-- Whether `key` starts with `keyPrefix`. -/
def startsWith (key keyPrefix : String) : Bool := keyPrefix.data.isPrefixOf key.data

/-- The documents a query body selects; `none` for a body that is no
query the service knows. -/
def queryFilter : Query → Option (documentObject → Bool)
  | [("query", [("match", [("key", key)])])] => some (fun d => decide (d.Key = key))
  | [("query", [("prefix", [("key", keyPrefix)])])] => some (fun d => startsWith d.Key keyPrefix)
  | [("query", [("match_all", [])])] => some (fun _ => true)
  | _ => none

/-- The reply to a request the service rejects. -/
def badRequest : Response :=
  { StatusCode := 400, Status := "400 Bad Request",
    decodeMap := .ok (.object "parsing_exception" "unknown query"),
    decodeResponse := .ok ⟨⟨none⟩⟩ }

/-- The reply to a search: status 200 and the hits. -/
def searchOK (found : List hit) : Response :=
  { StatusCode := 200, Status := "200 OK",
    decodeMap := .ok .absent,
    decodeResponse := .ok ⟨⟨some found⟩⟩ }

/-- The reply to an index or delete request: status 200, no hits object. -/
def writeOK : Response :=
  { StatusCode := 200, Status := "200 OK",
    decodeMap := .ok .absent,
    decodeResponse := .ok ⟨⟨none⟩⟩ }

/-- Index-or-replace by identifier. -/
def Store.upsert (s : Store) (index id : String) (body : documentObject) : Store :=
  s.filter (fun d => !(decide (d.index = index ∧ d.id = id))) ++
    [{ index := index, id := id, source := body }]

/-- The hits of a search on one index. -/
def Store.hitsOf (s : Store) (index : String) (f : documentObject → Bool) : List hit :=
  (s.filter (fun d => decide (d.index = index) && f d.source)).map (fun d => ⟨some d.source⟩)

/-- The store once the selected documents of the named indices are gone. -/
def Store.delete (s : Store) (indices : List String) (f : documentObject → Bool) : Store :=
  s.filter (fun d => !(decide (d.index ∈ indices) && f d.source))

/-- The reference client. -/
def refClient : Client Store where
  Index := fun s index id body _ => (.ok writeOK, s.upsert index id body)
  Search := fun s index query _ =>
    match queryFilter query with
    | some f => (.ok (searchOK (s.hitsOf index f)), s)
    | none => (.ok badRequest, s)
  DeleteByQuery := fun s indices query =>
    match queryFilter query with
    | some f => (.ok writeOK, s.delete indices f)
    | none => (.ok badRequest, s)

/-- The codec that never fails. -/
def refCodec : Codec where
  Marshal := fun _ => none
  Encode := fun _ => none

/-- An adapter on the reference client. -/
def refCache (index : String) (expiresIn : Duration) : elasticCache Store :=
  { Client := refClient, Index := index, ExpiresIn := expiresIn }

/-- The world with an empty backend and an empty log. -/
def emptyWorld : World Store := { store := [], log := [] }

/-- The first document of an index whose `key` field is `key`. -/
def Store.lookup (s : Store) (index key : String) : Option documentObject :=
  ((s.filter (fun d => decide (d.index = index) && decide (d.source.Key = key))).head?).map
    (fun d => d.source)

/-! ## Histories of calls -/

/-- One call of the adapter's public interface, with the instant it reads
from the clock. -/
inductive Call where
  | Set (now : Time) (key value : String)
  | Get (now : Time) (key : String)
  | IsValid (now : Time) (key : String)
  | Clear (key : String)
  | ClearPrefix (keyPrefix : String)
  | ClearAll
deriving DecidableEq, Repr

/-- The world a call leaves behind. -/
def elasticCache.call {σ : Type} (e : elasticCache σ) (j : Codec) (w : World σ) :
    Call → World σ
  | .Set now key value => (e.Set j now w key value).2
  | .Get now key => (e.Get j now w key).2
  | .IsValid now key => (e.IsValid j now w key).2
  | .Clear key => (e.Clear j w key).2
  | .ClearPrefix keyPrefix => (e.ClearPrefix j w keyPrefix).2
  | .ClearAll => (e.ClearAll j w).2

/-- The world a sequence of calls leaves behind. -/
def elasticCache.run {σ : Type} (e : elasticCache σ) (j : Codec) (w : World σ)
    (calls : List Call) : World σ :=
  calls.foldl (e.call j) w

/-! ## The reference backend behind the client's request routing

`esapi.IndexRequest` sends `POST /index/_doc` when `DocumentID` is empty,
which stores the body as a new document under an identifier the service
generates, and `PUT /index/_doc/DocumentID` otherwise, with the raw
`DocumentID` written into the request path. Where such a request ends up
depends on how the client library and the service read that path; this is
taken as a parameter. -/

/-- Where the request for a non-empty `DocumentID` ends up: the body is
indexed or replaced under a document identifier, the request cannot be
built or sent (a nil reply and an error), or the service answers with an
error status and stores nothing. -/
inductive Route where
  | put (docId : String)
  | fail (err : GoError)
  | reject (res : Response)

/-- An identifier that no stored document has: it is longer than each. -/
def Store.freshId (s : Store) : String :=
  String.mk ("auto-".data ++ s.flatMap (fun d => d.id.data))

/-- The reply to a request that created a document: status 201. -/
def createdOK : Response :=
  { StatusCode := 201, Status := "201 Created",
    decodeMap := .ok .absent,
    decodeResponse := .ok ⟨⟨none⟩⟩ }

/-- The reference client with the index request routed as the client
library does: an empty `DocumentID` creates a new document, any other one
goes where `route` sends it. Searches and deletions are those of
`refClient`. -/
def routedClient (route : String → Route) : Client Store where
  Index := fun s index id body _ =>
    if id = "" then
      (.ok createdOK, s ++ [{ index := index, id := s.freshId, source := body }])
    else
      match route id with
      | .put docId => (.ok writeOK, s.upsert index docId body)
      | .fail err => (.error err, s)
      | .reject res => (.ok res, s)
  Search := refClient.Search
  DeleteByQuery := refClient.DeleteByQuery

/-- An adapter on the routed reference client. -/
def routedCache (route : String → Route) (index : String) (expiresIn : Duration) :
    elasticCache Store :=
  { Client := routedClient route, Index := index, ExpiresIn := expiresIn }

/-- Every document of the index with a non-empty key is stored under the
identifier its key is routed to. -/
def Store.routed (s : Store) (route : String → Route) (index : String) : Prop :=
  ∀ d ∈ s, d.index = index → d.source.Key = "" ∨ route d.source.Key = Route.put d.id

/-! ## Go strings that are not valid UTF-8

A Go string is a sequence of bytes. `encoding/json` writes a string as
text: it reads the bytes as UTF-8 and writes U+FFFD for every byte that is
part of no valid encoding. A value reaches the backend through
`json.Marshal` alone, so a value that is not valid UTF-8 is represented by
the text `jsonText` of its bytes. -/

/-- Whether a byte is a UTF-8 continuation byte. -/
def isCont (b : UInt8) : Bool := decide (0x80 ≤ b) && decide (b ≤ 0xBF)

/-- Go `utf8.DecodeRune` on the byte `b0` followed by `bs`: the rune and
the number of bytes it takes; U+FFFD and one byte for a byte that starts no
valid encoding. -/
def decodeRune (b0 : UInt8) (bs : List UInt8) : Char × Nat :=
  let bad : Char × Nat := (Char.ofNat 0xFFFD, 1)
  if b0 < 0x80 then (Char.ofNat b0.toNat, 1)
  else if 0xC2 ≤ b0 ∧ b0 ≤ 0xDF then
    match bs with
    | b1 :: _ =>
      if isCont b1 then (Char.ofNat (b0.toNat % 32 * 64 + b1.toNat % 64), 2) else bad
    | _ => bad
  else if 0xE0 ≤ b0 ∧ b0 ≤ 0xEF then
    match bs with
    | b1 :: b2 :: _ =>
      let lo : UInt8 := if b0 = 0xE0 then 0xA0 else 0x80
      let hi : UInt8 := if b0 = 0xED then 0x9F else 0xBF
      if lo ≤ b1 ∧ b1 ≤ hi ∧ isCont b2 = true then
        (Char.ofNat (b0.toNat % 16 * 4096 + b1.toNat % 64 * 64 + b2.toNat % 64), 3)
      else bad
    | _ => bad
  else if 0xF0 ≤ b0 ∧ b0 ≤ 0xF4 then
    match bs with
    | b1 :: b2 :: b3 :: _ =>
      let lo : UInt8 := if b0 = 0xF0 then 0x90 else 0x80
      let hi : UInt8 := if b0 = 0xF4 then 0x8F else 0xBF
      if lo ≤ b1 ∧ b1 ≤ hi ∧ isCont b2 = true ∧ isCont b3 = true then
        (Char.ofNat (b0.toNat % 8 * 262144 + b1.toNat % 64 * 4096 + b2.toNat % 64 * 64
          + b3.toNat % 64), 4)
      else bad
    | _ => bad
  else bad

/-- The runes `encoding/json` reads from a Go string, after skipping the
`skip` bytes that belong to the rune before. -/
def jsonChars : Nat → List UInt8 → List Char
  | _, [] => []
  | skip + 1, _ :: bs => jsonChars skip bs
  | 0, b0 :: bs => (decodeRune b0 bs).1 :: jsonChars ((decodeRune b0 bs).2 - 1) bs

/-- The text `encoding/json` writes for a Go string, and a decoder reads
back. -/
def jsonText (b : List UInt8) : String := String.mk (jsonChars 0 b)

/-- The bytes of the Go string that holds a text. -/
def utf8Bytes (s : String) : List UInt8 := s.data.flatMap String.utf8EncodeChar

/-! ## Backends that fail -/

/-- A client over a backend without state that gives one fixed reply to
each kind of request. -/
def replyClient (index search delete : Except GoError Response) : Client Unit where
  Index := fun s _ _ _ _ => (index, s)
  Search := fun s _ _ _ => (search, s)
  DeleteByQuery := fun s _ _ => (delete, s)

/-- The reference client behind a connection on which every
delete-by-query request times out: `es.DeleteByQuery` returns a nil reply
and a transport error. -/
def lossyClient : Client Store where
  Index := refClient.Index
  Search := refClient.Search
  DeleteByQuery := fun s _ _ =>
    (.error ⟨"net/http: request canceled (Client.Timeout exceeded while awaiting headers)"⟩, s)

/-- The world of the client without state. -/
def unitWorld : World Unit := { store := (), log := [] }

/-! ## Constructor -/

/-- C10: `NewElasticCache` panics exactly when `config.Client` is nil;
otherwise it returns an adapter with the client passed through, `Index`
equal to `config.Index` when that is non-empty and to `"gocache"` when it
is empty, and `ExpiresIn` equal to `config.ExpiresIn` when that is positive
and to 3600 seconds (3600000000000 ns) when it is not. -/
theorem NewElasticCache_defaults {σ : Type} (config : ElasticCacheConfig σ) :
    (NewElasticCache config = Outcome.panicked ↔ config.Client = none) ∧
    (∀ client, config.Client = some client →
      ∃ a, NewElasticCache config = Outcome.returned a ∧ a.Client = client ∧
        (config.Index ≠ "" → a.Index = config.Index) ∧
        (config.Index = "" → a.Index = "gocache") ∧
        (0 < config.ExpiresIn → a.ExpiresIn = config.ExpiresIn) ∧
        (config.ExpiresIn ≤ 0 → a.ExpiresIn = 3600 * Second ∧ a.ExpiresIn = 3600000000000)) := by
  refine ⟨?_, ?_⟩
  · cases hc : config.Client <;> simp [NewElasticCache, hc]
  · intro client hc
    refine ⟨_, by simp only [NewElasticCache, hc]; rfl, rfl, ?_, ?_, ?_, ?_⟩
    · intro h; simp [h]
    · intro h; simp [h]
    · intro h; simp [not_le.mpr h]
    · intro h; simp [h, Second]

/-! ## find -/

/-- What `find` returns on a search reply that is no error and decodes
into `r`: lines 219-226 on `r`. -/
theorem find_of_search_ok {σ : Type} (e : elasticCache σ) (j : Codec) (w : World σ)
    (key : String) (res : Response) (s : σ)
    (henc : j.Encode (matchQuery key) = none)
    (hsearch : e.Client.Search w.store e.Index (matchQuery key) true = (Except.ok res, s))
    (hok : res.IsError = false) :
    e.find j w key = findDecode res (w.withStore s) := by
  simp [elasticCache.find, henc, hsearch, hok]

/-- C9, as the code has it: on a search reply that is no error and decodes,
`find` returns the "Not found" error when the reply has no hits array or an
empty one; when the first hit carries a `_source` document it returns that
document with a nil error, whatever the later hits are; and when the first
hit carries no `_source` it returns "Not found", whatever the later hits
are. -/
theorem find_hit_selection {σ : Type} (e : elasticCache σ) (j : Codec) (w : World σ)
    (key : String) (res : Response) (s : σ) (r : response)
    (henc : j.Encode (matchQuery key) = none)
    (hsearch : e.Client.Search w.store e.Index (matchQuery key) true = (Except.ok res, s))
    (hok : res.IsError = false)
    (hdec : res.decodeResponse = Except.ok r) :
    ((r.Hits.Hits = none ∨ r.Hits.Hits = some []) →
      (e.find j w key).1 = Outcome.returned (none, some ⟨"Not found"⟩)) ∧
    (∀ d rest, r.Hits.Hits = some (⟨some d⟩ :: rest) →
      (e.find j w key).1 = Outcome.returned (some d, none)) ∧
    (∀ rest, r.Hits.Hits = some (⟨none⟩ :: rest) →
      (e.find j w key).1 = Outcome.returned (none, some ⟨"Not found"⟩)) := by
  rw [find_of_search_ok e j w key res s henc hsearch hok]
  refine ⟨?_, ?_, ?_⟩
  · rintro (h | h) <;> simp [findDecode, hdec, h]
  · intro d rest h
    simp [findDecode, hdec, h]
  · intro rest h
    simp [findDecode, hdec, h]

/-- The hit selection at a concrete reply: of two hits for `"foo"`, the
first one is returned. -/
theorem find_hit_selection_witness :
    ((elasticCache.mk
        (replyClient (Except.ok writeOK)
          (Except.ok (searchOK [⟨some ⟨"foo", "bar", 0⟩⟩, ⟨some ⟨"foo", "baz", 1⟩⟩]))
          (Except.ok writeOK))
        "example" (10 * Second)).find refCodec unitWorld "foo").1
      = Outcome.returned (some ⟨"foo", "bar", 0⟩, none) :=
  (find_hit_selection _ refCodec unitWorld "foo"
    (searchOK [⟨some ⟨"foo", "bar", 0⟩⟩, ⟨some ⟨"foo", "baz", 1⟩⟩]) ()
    ⟨⟨some [⟨some ⟨"foo", "bar", 0⟩⟩, ⟨some ⟨"foo", "baz", 1⟩⟩]⟩⟩
    rfl rfl rfl rfl).2.1 _ _ rfl

/-- C9 fails as stated: a successful search reply with two hits, the first
of them without a `_source`, makes `find` return "Not found" and no
document, although the reply has one or more hits. -/
theorem find_first_hit_without_source :
    (searchOK [⟨none⟩, ⟨some ⟨"foo", "bar", 0⟩⟩]).IsError = false ∧
    (searchOK [⟨none⟩, ⟨some ⟨"foo", "bar", 0⟩⟩]).decodeResponse
      = Except.ok ⟨⟨some [⟨none⟩, ⟨some ⟨"foo", "bar", 0⟩⟩]⟩⟩ ∧
    ((elasticCache.mk
        (replyClient (Except.ok writeOK)
          (Except.ok (searchOK [⟨none⟩, ⟨some ⟨"foo", "bar", 0⟩⟩]))
          (Except.ok writeOK))
        "example" (10 * Second)).find refCodec unitWorld "foo").1
      = Outcome.returned (none, some ⟨"Not found"⟩) := by
  refine ⟨rfl, rfl, rfl⟩

/-! ## Delete-by-query -/

/-- Every way `deleteByQuery` ends: it never returns a non-nil error; it
returns nil exactly when the goroutine reaches `wg.Done()`; it blocks
exactly when the goroutine leaves through one of its three early returns
(the query does not encode, the request fails, or the body of an error
reply does not decode); it panics exactly when the `error` entry of an error
reply is not an object. -/
theorem deleteByQuery_outcome {σ : Type} (e : elasticCache σ) (j : Codec) (w : World σ)
    (query : Query) :
    (∀ err, (e.deleteByQuery j w query).1 ≠ Outcome.returned (some err)) ∧
    ((e.deleteByQuery j w query).1 = Outcome.blocked ↔
      (j.Encode query ≠ none ∨
       (∃ err, (e.Client.DeleteByQuery w.store [e.Index] query).1 = Except.error err) ∨
       (∃ res err, (e.Client.DeleteByQuery w.store [e.Index] query).1 = Except.ok res ∧
          res.IsError = true ∧ res.decodeMap = Except.error err))) ∧
    ((e.deleteByQuery j w query).1 = Outcome.panicked ↔
      (j.Encode query = none ∧
       ∃ res, (e.Client.DeleteByQuery w.store [e.Index] query).1 = Except.ok res ∧
          res.IsError = true ∧ res.decodeMap = Except.ok ErrorField.other)) := by
  unfold elasticCache.deleteByQuery deleteByQueryGo
  cases henc : j.Encode query with
  | some err => simp [WaitGroup.Wait, WaitGroup.Add]
  | none =>
    rcases hreq : e.Client.DeleteByQuery w.store [e.Index] query with ⟨res | res, s⟩
    · simp [WaitGroup.Wait, WaitGroup.Add]
    · cases herr : res.IsError with
      | false => simp [herr, WaitGroup.Wait, WaitGroup.Add, WaitGroup.Done]
      | true =>
        rcases hdec : res.decodeMap with err | (_ | ⟨t, r⟩ | _) <;>
          simp [herr, hdec, WaitGroup.Wait, WaitGroup.Add, WaitGroup.Done]

/-- C5 at the failing input: with a backend at which the delete-by-query
request fails in transport, `Clear("foo")`, `ClearPrefix("hel")` and
`ClearAll()` do not return nil: the goroutine logs the error and returns
without `wg.Done()`, and `wg.Wait()` blocks forever. The same happens when
an error reply has a body that is no JSON. -/
theorem Clear_blocks_when_request_fails :
    ((refCache "example" (10 * Second)).Set refCodec 0 emptyWorld "foo" "bar").1
      = Outcome.returned none ∧
    ((elasticCache.mk lossyClient "example" (10 * Second)).Clear refCodec
      ((refCache "example" (10 * Second)).Set refCodec 0 emptyWorld "foo" "bar").2 "foo").1
      = Outcome.blocked ∧
    ((elasticCache.mk lossyClient "example" (10 * Second)).ClearPrefix refCodec
      emptyWorld "hel").1 = Outcome.blocked ∧
    ((elasticCache.mk lossyClient "example" (10 * Second)).ClearAll refCodec
      emptyWorld).1 = Outcome.blocked ∧
    ((elasticCache.mk
        (replyClient (Except.ok writeOK) (Except.ok writeOK)
          (Except.ok ⟨503, "503 Service Unavailable",
            Except.error ⟨"invalid character '<' looking for beginning of value"⟩,
            Except.error ⟨"EOF"⟩⟩))
        "example" (10 * Second)).Clear refCodec unitWorld "foo").1 = Outcome.blocked := by
  refine ⟨rfl, rfl, rfl, rfl, rfl⟩

/-! ## Set -/

/-- C6, as the code has it: `Set` returns a non-nil error exactly when
marshalling the entry fails, and then it returns that error and sends no
request. A failure of the backend is never returned as an error: a
transport error of the index request is written to the log and no error is
returned, and whenever the index request yields a reply, of whatever
status, `Set` returns nil. -/
theorem Set_error_iff_marshal_fails {σ : Type} (e : elasticCache σ) (j : Codec) (now : Time)
    (w : World σ) (key value : String) :
    (∀ err, (e.Set j now w key value).1 = Outcome.returned (some err) ↔
      j.Marshal ⟨key, value, now⟩ = some err) ∧
    (∀ err, j.Marshal ⟨key, value, now⟩ = some err →
      e.Set j now w key value = (Outcome.returned (some err), w)) ∧
    (∀ err s, j.Marshal ⟨key, value, now⟩ = none →
      e.Client.Index w.store e.Index key ⟨key, value, now⟩ "true" = (Except.error err, s) →
      (e.Set j now w key value).2 = (w.withStore s).Println err.msg ∧
      ∀ r, (e.Set j now w key value).1 ≠ Outcome.returned (some r)) ∧
    (∀ res s, j.Marshal ⟨key, value, now⟩ = none →
      e.Client.Index w.store e.Index key ⟨key, value, now⟩ "true" = (Except.ok res, s) →
      e.Set j now w key value = (Outcome.returned none, w.withStore s)) := by
  cases hm : j.Marshal ⟨key, value, now⟩ with
  | some err0 => simp [elasticCache.Set, hm]
  | none =>
    rcases hreq : e.Client.Index w.store e.Index key ⟨key, value, now⟩ "true"
      with ⟨err | res, s⟩ <;>
      simp [elasticCache.Set, hm, hreq, WaitGroup.Wait, WaitGroup.Add, WaitGroup.Done]

/-- C6 fails as stated: when the index request fails in transport, `Set`
returns no error to its caller (the goroutine logs it and then panics on the
nil reply), and when the backend answers the request with an error status,
`Set` returns nil. -/
theorem Set_backend_failure_not_returned :
    ((elasticCache.mk
        (replyClient (Except.error ⟨"dial tcp 127.0.0.1:9200: connect: connection refused"⟩)
          (Except.ok writeOK) (Except.ok writeOK))
        "example" (10 * Second)).Set refCodec 0 unitWorld "foo" "bar")
      = (Outcome.panicked,
          ⟨(), ["dial tcp 127.0.0.1:9200: connect: connection refused"]⟩) ∧
    ((elasticCache.mk
        (replyClient
          (Except.ok ⟨503, "503 Service Unavailable",
            Except.ok (ErrorField.object "cluster_block_exception" "index read-only"),
            Except.error ⟨"EOF"⟩⟩)
          (Except.ok writeOK) (Except.ok writeOK))
        "example" (10 * Second)).Set refCodec 0 unitWorld "foo" "bar").1
      = Outcome.returned none := by
  refine ⟨rfl, rfl⟩

/-! ## Expiry -/

/-- `Time.Sub` is the plain difference capped to the range of `Duration`. -/
theorem Time.Sub_le_iff (t u : Time) (d : Duration) (hmin : minDuration ≤ d)
    (hmax : d < maxDuration) : Time.Sub t u ≤ d ↔ t - u ≤ d := by
  unfold Time.Sub
  unfold maxDuration minDuration Time Duration at *
  split_ifs with h1 h2 <;> constructor <;> intro h <;> omega

/-- What `isExpired` does on a non-nil entry: nothing when the capped age
is within `ExpiresIn`, and otherwise `Clear` of the entry's key, whose
outcome decides whether `isExpired` returns. -/
theorem isExpired_some {σ : Type} (e : elasticCache σ) (j : Codec) (now : Time)
    (w : World σ) (src : documentObject) :
    e.isExpired j now w (some src) =
      if Time.Sub now src.CreatedAt ≤ e.ExpiresIn then (Outcome.returned false, w)
      else match e.Clear j w src.Key with
        | (Outcome.returned _, w1) => (Outcome.returned true, w1)
        | (Outcome.blocked, w1) => (Outcome.blocked, w1)
        | (Outcome.panicked, w1) => (Outcome.panicked, w1) := by
  unfold elasticCache.isExpired
  by_cases h : Time.Sub now src.CreatedAt ≤ e.ExpiresIn
  · simp [h, not_lt.mpr h]
  · have h2 : e.ExpiresIn < Time.Sub now src.CreatedAt := not_le.mp h
    simp only [h, h2, gt_iff_lt, decide_True, if_true, if_false]
    rcases hc : e.Clear j w src.Key with ⟨_ | _ | _, w1⟩ <;>
      simp [WaitGroup.Wait, WaitGroup.Add, WaitGroup.Done]

/-- `Time.Sub` never exceeds the largest `Duration`. -/
theorem Time.Sub_le_maxDuration (t u : Time) : Time.Sub t u ≤ maxDuration := by
  unfold Time.Sub
  unfold maxDuration minDuration Time Duration at *
  split_ifs <;> omega

/-- C7, as the code has it. For `ExpiresIn` below the largest `Duration`:
`isExpired` on a non-nil entry returns false, touching nothing, exactly when
`now - created_at ≤ ExpiresIn`, so at age `ExpiresIn` exactly the entry is
not expired; whenever it returns, it returns true exactly when
`now - created_at > ExpiresIn`; and when `now - created_at > ExpiresIn` it
does return true provided the `Clear` it triggers returns. For `ExpiresIn`
equal to the largest `Duration`: `isExpired` returns false, touching
nothing, for every entry and every clock value. -/
theorem isExpired_boundary {σ : Type} (e : elasticCache σ) (j : Codec) (now : Time)
    (w : World σ) (src : documentObject)
    (hmin : minDuration ≤ e.ExpiresIn) :
    (e.ExpiresIn < maxDuration →
      ((e.isExpired j now w (some src)).1 = Outcome.returned false ↔
        now - src.CreatedAt ≤ e.ExpiresIn) ∧
      (now - src.CreatedAt ≤ e.ExpiresIn →
        e.isExpired j now w (some src) = (Outcome.returned false, w)) ∧
      (now = src.CreatedAt + e.ExpiresIn →
        e.isExpired j now w (some src) = (Outcome.returned false, w)) ∧
      (∀ b, (e.isExpired j now w (some src)).1 = Outcome.returned b →
        (b = true ↔ e.ExpiresIn < now - src.CreatedAt)) ∧
      (e.ExpiresIn < now - src.CreatedAt →
        (∃ r, (e.Clear j w src.Key).1 = Outcome.returned r) →
        (e.isExpired j now w (some src)).1 = Outcome.returned true)) ∧
    (e.ExpiresIn = maxDuration →
      e.isExpired j now w (some src) = (Outcome.returned false, w)) := by
  constructor
  · intro hlt
    have hsub := Time.Sub_le_iff now src.CreatedAt e.ExpiresIn hmin hlt
    rw [isExpired_some]
    by_cases h : now - src.CreatedAt ≤ e.ExpiresIn
    · have h1 := hsub.mpr h
      rw [if_pos h1]
      refine ⟨by simp [h], fun _ => rfl, fun _ => rfl, ?_, ?_⟩
      · intro b hb
        have hb1 : b = false := by simpa using hb.symm
        simp [hb1, h]
      · intro h2
        exact absurd h (not_le.mpr h2)
    · have h1 : ¬ Time.Sub now src.CreatedAt ≤ e.ExpiresIn := fun hh => h (hsub.mp hh)
      rw [if_neg h1]
      refine ⟨?_, fun hh => absurd hh h, fun hh => absurd (le_of_eq (by rw [hh]; ring)) h,
        ?_, ?_⟩
      · rcases hc : e.Clear j w src.Key with ⟨_ | _ | _, w1⟩ <;> simp [h]
      · intro b hb
        rcases hc : e.Clear j w src.Key with ⟨_ | _ | _, w1⟩ <;> rw [hc] at hb <;>
          simp at hb
        simp [← hb, not_le.mp h]
      · rintro - ⟨r, hr⟩
        rcases hc : e.Clear j w src.Key with ⟨_ | _ | _, w1⟩ <;> simp_all
  · intro heq
    rw [isExpired_some, if_pos (heq ▸ Time.Sub_le_maxDuration now src.CreatedAt)]

/-- The boundary at a concrete entry with `ExpiresIn` of 10 seconds: at an
age of 10 seconds exactly the entry is not expired, one nanosecond later it
is; with `ExpiresIn` the largest `Duration` it is not. -/
theorem isExpired_boundary_witness :
    ((refCache "example" (10 * Second)).isExpired refCodec (10 * Second) emptyWorld
        (some ⟨"foo", "bar", 0⟩)).1 = Outcome.returned false ∧
    ((refCache "example" (10 * Second)).isExpired refCodec (10 * Second + 1) emptyWorld
        (some ⟨"foo", "bar", 0⟩)).1 = Outcome.returned true ∧
    (refCache "example" maxDuration).isExpired refCodec (10 * Second + 1) emptyWorld
        (some ⟨"foo", "bar", 0⟩) = (Outcome.returned false, emptyWorld) :=
  ⟨((isExpired_boundary (refCache "example" (10 * Second)) refCodec (10 * Second) emptyWorld
      ⟨"foo", "bar", 0⟩ (by decide)).1 (by decide)).1.mpr (by decide),
   ((isExpired_boundary (refCache "example" (10 * Second)) refCodec (10 * Second + 1)
      emptyWorld ⟨"foo", "bar", 0⟩ (by decide)).1 (by decide)).2.2.2.2
      (by decide) ⟨none, rfl⟩,
   (isExpired_boundary (refCache "example" maxDuration) refCodec (10 * Second + 1)
      emptyWorld ⟨"foo", "bar", 0⟩ (by decide)).2 rfl⟩

/-- C7 fails as stated, in two ways. With `ExpiresIn` the largest
`Duration`, an entry whose `created_at` is the zero `time.Time` (year 1) is
older than `ExpiresIn` on 4 November 2026, yet `isExpired` returns false,
because `Sub` is capped at the largest `Duration`. And with `ExpiresIn` of
10 seconds and a backend at which the delete-by-query request fails, an
entry one nanosecond older than `ExpiresIn` makes `isExpired` block instead
of returning true. -/
theorem isExpired_age_capped :
    (1793750400000000000 : Int) - (-62135596800000000000) > maxDuration ∧
    ((refCache "example" maxDuration).isExpired refCodec 1793750400000000000 emptyWorld
        (some ⟨"foo", "bar", -62135596800000000000⟩)).1 = Outcome.returned false ∧
    (10 * Second + 1 : Int) - 0 > 10 * Second ∧
    ((elasticCache.mk lossyClient "example" (10 * Second)).isExpired refCodec
        (10 * Second + 1) emptyWorld (some ⟨"foo", "bar", 0⟩)).1 = Outcome.blocked := by
  refine ⟨by decide, by decide, by decide, by decide⟩

/-! ## Expired reads -/

/-- What `Get` does once `find` has returned an entry older than
`ExpiresIn`: the outcome of the `Clear` that `isExpired` triggers decides
whether `Get` returns the "Cache expired" error, blocks or panics. -/
theorem Get_of_expired {σ : Type} (e : elasticCache σ) (j : Codec) (now : Time)
    (w w1 : World σ) (key : String) (src : documentObject)
    (hfind : e.find j w key = (Outcome.returned (some src, none), w1))
    (hage : e.ExpiresIn < Time.Sub now src.CreatedAt) :
    (e.Get j now w key).1 =
      match (e.Clear j w1 src.Key).1 with
      | Outcome.returned _ => Outcome.returned ("", some ⟨"Cache expired"⟩)
      | Outcome.blocked => Outcome.blocked
      | Outcome.panicked => Outcome.panicked := by
  simp only [elasticCache.Get, hfind, isExpired_some, if_neg (not_le.mpr hage)]
  rcases hc : e.Clear j w1 src.Key with ⟨_ | _ | _, w2⟩ <;> simp

/-- C8 at the failing input: the entry `"foo"` is found and is one
nanosecond older than `ExpiresIn`; with a backend at which the
delete-by-query request then fails, `Get("foo")` does not return the
"Cache expired" error: it blocks in `wg.Wait()`. With a backend at which the
deletion succeeds it returns the empty value with "Cache expired", which is
not the "Not found" error of a search without hits. -/
theorem Get_expired_blocks_when_delete_fails :
    ((elasticCache.mk lossyClient "example" (10 * Second)).find refCodec
      ((refCache "example" (10 * Second)).Set refCodec 0 emptyWorld "foo" "bar").2 "foo").1
      = Outcome.returned (some ⟨"foo", "bar", 0⟩, none) ∧
    Time.Sub (10 * Second + 1) 0 > 10 * Second ∧
    ((elasticCache.mk lossyClient "example" (10 * Second)).Get refCodec (10 * Second + 1)
      ((refCache "example" (10 * Second)).Set refCodec 0 emptyWorld "foo" "bar").2 "foo").1
      = Outcome.blocked ∧
    ((refCache "example" (10 * Second)).Get refCodec (10 * Second + 1)
      ((refCache "example" (10 * Second)).Set refCodec 0 emptyWorld "foo" "bar").2 "foo").1
      = Outcome.returned ("", some ⟨"Cache expired"⟩) ∧
    ((refCache "example" (10 * Second)).Get refCodec (10 * Second + 1) emptyWorld "foo").1
      = Outcome.returned ("", some ⟨"Not found"⟩) ∧
    (GoError.mk "Cache expired" = GoError.mk "Not found") = False := by
  refine ⟨by decide, by decide, by decide, by decide, by decide, by decide⟩

/-! ## The reference backend: what each operation does -/

theorem World.withStore_store {σ : Type} (w : World σ) : w.withStore w.store = w := rfl

theorem queryFilter_matchQuery (key : String) :
    queryFilter (matchQuery key) = some (fun d => decide (d.Key = key)) := rfl

theorem queryFilter_prefixQuery (p : String) :
    queryFilter (prefixQuery p) = some (fun d => startsWith d.Key p) := rfl

theorem queryFilter_matchAllQuery : queryFilter matchAllQuery = some (fun _ => true) := rfl

/-- On the reference backend a delete-by-query returns nil and removes the
selected documents of the adapter's index. -/
theorem ref_deleteByQuery (index : String) (expiresIn : Duration) (w : World Store)
    (query : Query) (f : documentObject → Bool) (hq : queryFilter query = some f) :
    (refCache index expiresIn).deleteByQuery refCodec w query
      = (Outcome.returned none, w.withStore (w.store.delete [index] f)) := by
  simp [elasticCache.deleteByQuery, deleteByQueryGo, refCache, refCodec, refClient, hq,
    writeOK, Response.IsError, WaitGroup.Wait, WaitGroup.Add, WaitGroup.Done]

/-- On the reference backend `Set` returns nil and stores the entry under
its key. -/
theorem ref_Set (index : String) (expiresIn : Duration) (now : Time) (w : World Store)
    (key value : String) :
    (refCache index expiresIn).Set refCodec now w key value
      = (Outcome.returned none, w.withStore (w.store.upsert index key ⟨key, value, now⟩)) := by
  simp [elasticCache.Set, refCache, refCodec, refClient, WaitGroup.Wait, WaitGroup.Add,
    WaitGroup.Done]

/-- On the reference backend `find` returns the first stored document with
the key, or "Not found". -/
theorem ref_find (index : String) (expiresIn : Duration) (w : World Store) (key : String) :
    (refCache index expiresIn).find refCodec w key =
      match w.store.lookup index key with
      | some src => (Outcome.returned (some src, none), w)
      | none => (Outcome.returned (none, some ⟨"Not found"⟩), w) := by
  simp only [elasticCache.find, refCache, refCodec, refClient, queryFilter_matchQuery, searchOK,
    Response.IsError, findDecode, Store.hitsOf, Store.lookup, World.withStore_store]
  cases h : List.filter (fun d => decide (d.index = index) && decide (d.source.Key = key))
    w.store with
  | nil => simp
  | cons d rest => simp

/-- On the reference backend `Get` returns "Not found" when no document has
the key, the value of the first one when it is not older than `ExpiresIn`,
and otherwise "Cache expired" after deleting the documents with that key. -/
theorem ref_Get (index : String) (expiresIn : Duration) (now : Time) (w : World Store)
    (key : String) :
    (refCache index expiresIn).Get refCodec now w key =
      match w.store.lookup index key with
      | none => (Outcome.returned ("", some ⟨"Not found"⟩), w)
      | some src =>
        if Time.Sub now src.CreatedAt ≤ expiresIn then (Outcome.returned (src.Value, none), w)
        else (Outcome.returned ("", some ⟨"Cache expired"⟩),
          w.withStore (w.store.delete [index] (fun d => decide (d.Key = src.Key)))) := by
  unfold elasticCache.Get
  rw [ref_find]
  cases h : w.store.lookup index key with
  | none => simp
  | some src =>
    simp only [isExpired_some, elasticCache.Clear]
    rw [ref_deleteByQuery index expiresIn w _ _ (queryFilter_matchQuery src.Key)]
    by_cases hage : Time.Sub now src.CreatedAt ≤ expiresIn
    · simp [hage, refCache]
    · simp [hage, refCache]

/-! ## Histories on the reference backend: invariants -/

/-- A document selected by the deletion is not found afterwards. -/
theorem Store.lookup_delete_selected (s : Store) (index key : String)
    (f : documentObject → Bool) (hf : ∀ d : documentObject, d.Key = key → f d = true) :
    (s.delete [index] f).lookup index key = none := by
  have : List.filter (fun d => decide (d.index = index) && decide (d.source.Key = key))
      (s.delete [index] f) = [] := by
    rw [Store.delete, List.filter_filter, List.filter_eq_nil_iff]
    intro d _
    by_cases hi : d.index = index <;> by_cases hk : d.source.Key = key <;>
      simp [hi, hk, hf d.source]
  simp [Store.lookup, this]

/-- A key the deletion does not select is found as before. -/
theorem Store.lookup_delete_other (s : Store) (index key : String)
    (f : documentObject → Bool) (hf : ∀ d : documentObject, d.Key = key → f d = false) :
    (s.delete [index] f).lookup index key = s.lookup index key := by
  have : List.filter (fun d => decide (d.index = index) && decide (d.source.Key = key))
      (s.delete [index] f)
      = List.filter (fun d => decide (d.index = index) && decide (d.source.Key = key)) s := by
    rw [Store.delete, List.filter_filter]
    apply List.filter_congr
    intro d _
    by_cases hi : d.index = index <;> by_cases hk : d.source.Key = key <;>
      simp [hi, hk, hf d.source]
  simp [Store.lookup, this]

/-- An upsert under another key does not bring the key into the index. -/
theorem Store.lookup_upsert_other (s : Store) (index key other value : String) (now : Time)
    (hne : other ≠ key) (h : s.lookup index key = none) :
    (s.upsert index other ⟨other, value, now⟩).lookup index key = none := by
  have h0 : List.filter (fun d => decide (d.index = index) && decide (d.source.Key = key)) s
      = [] := by
    cases hl : List.filter (fun d => decide (d.index = index) && decide (d.source.Key = key)) s
      with
    | nil => rfl
    | cons d rest => simp [Store.lookup, hl] at h
  have : List.filter (fun d => decide (d.index = index) && decide (d.source.Key = key))
      (List.filter (fun d => !(decide (d.index = index ∧ d.id = other))) s) = [] := by
    rw [List.filter_filter, List.filter_eq_nil_iff]
    intro d hd
    have := (List.filter_eq_nil_iff.mp h0) d hd
    simp only [Bool.and_eq_true, Bool.not_eq_true] at this ⊢
    intro hh
    exact this hh.1
  unfold Store.lookup Store.upsert
  rw [List.filter_append, this]
  simp [hne]

/-- A deletion does not bring a key into the index. -/
theorem Store.lookup_delete_none (s : Store) (index key : String) (indices : List String)
    (f : documentObject → Bool) (h : s.lookup index key = none) :
    (s.delete indices f).lookup index key = none := by
  have h0 : List.filter (fun d => decide (d.index = index) && decide (d.source.Key = key)) s
      = [] := by
    cases hl : List.filter (fun d => decide (d.index = index) && decide (d.source.Key = key)) s
      with
    | nil => rfl
    | cons d rest => simp [Store.lookup, hl] at h
  have : List.filter (fun d => decide (d.index = index) && decide (d.source.Key = key))
      (s.delete indices f) = [] := by
    rw [Store.delete, List.filter_filter, List.filter_eq_nil_iff]
    intro d hd
    have := (List.filter_eq_nil_iff.mp h0) d hd
    simp only [Bool.and_eq_true, Bool.not_eq_true] at this ⊢
    intro hh
    exact this hh.1
  simp [Store.lookup, this]

/-- On the reference backend `IsValid` is false when no document has the
key or the first one is too old, and otherwise tells whether the value is
non-empty. -/
theorem ref_IsValid (index : String) (expiresIn : Duration) (now : Time) (w : World Store)
    (key : String) :
    (refCache index expiresIn).IsValid refCodec now w key =
      match w.store.lookup index key with
      | none => (Outcome.returned false, w)
      | some src =>
        if Time.Sub now src.CreatedAt ≤ expiresIn then
          (Outcome.returned (decide (src.Value ≠ "")), w)
        else (Outcome.returned false,
          w.withStore (w.store.delete [index] (fun d => decide (d.Key = src.Key)))) := by
  unfold elasticCache.IsValid
  rw [ref_Get]
  cases h : w.store.lookup index key with
  | none => simp
  | some src =>
    by_cases hage : Time.Sub now src.CreatedAt ≤ expiresIn
    · by_cases hv : src.Value = "" <;> simp [hage, hv]
    · simp [hage]

/-- A property of the store that upserts under the call's key and deletions
keep is kept by every call on the reference backend. -/
theorem ref_call_keeps (index : String) (expiresIn : Duration) (P : Store → Prop)
    (c : Call) (w : World Store)
    (hup : ∀ now key value, c = Call.Set now key value →
      P (w.store.upsert index key ⟨key, value, now⟩))
    (hdel : ∀ f, P (w.store.delete [index] f))
    (h : P w.store) :
    P (((refCache index expiresIn).call refCodec w c).store) := by
  cases c with
  | Set now key value =>
    simp only [elasticCache.call, ref_Set]
    exact hup now key value rfl
  | Get now key =>
    simp only [elasticCache.call, ref_Get]
    cases w.store.lookup index key with
    | none => exact h
    | some src =>
      by_cases hage : Time.Sub now src.CreatedAt ≤ expiresIn
      · simpa [hage] using h
      · simpa [hage, World.withStore] using hdel _
  | IsValid now key =>
    simp only [elasticCache.call, ref_IsValid]
    cases w.store.lookup index key with
    | none => exact h
    | some src =>
      by_cases hage : Time.Sub now src.CreatedAt ≤ expiresIn
      · simpa [hage] using h
      · simpa [hage, World.withStore] using hdel _
  | Clear key =>
    simp only [elasticCache.call, elasticCache.Clear,
      ref_deleteByQuery index expiresIn w _ _ (queryFilter_matchQuery key)]
    exact hdel (fun d => decide (d.Key = key))
  | ClearPrefix keyPrefix =>
    simp only [elasticCache.call, elasticCache.ClearPrefix,
      ref_deleteByQuery index expiresIn w _ _ (queryFilter_prefixQuery keyPrefix)]
    exact hdel (fun d => startsWith d.Key keyPrefix)
  | ClearAll =>
    simp only [elasticCache.call, elasticCache.ClearAll,
      ref_deleteByQuery index expiresIn w _ _ queryFilter_matchAllQuery]
    exact hdel (fun _ => true)

/-- A property kept by each call of a history holds after the history. -/
theorem run_keeps {σ : Type} (e : elasticCache σ) (j : Codec) (P : World σ → Prop)
    (calls : List Call) (w : World σ)
    (hstep : ∀ c ∈ calls, ∀ w1, P w1 → P (e.call j w1 c)) (h : P w) :
    P (e.run j w calls) := by
  induction calls generalizing w with
  | nil => exact h
  | cons c rest ih =>
    simp only [elasticCache.run, List.foldl_cons]
    exact ih (e.call j w c) (fun c1 hc1 => hstep c1 (List.mem_cons_of_mem _ hc1))
      (hstep c (List.mem_cons_self _ _) w h)

/-- A history from the empty index without a `Set` of the key leaves no
document with the key. -/
theorem ref_run_lookup_none (index : String) (expiresIn : Duration) (key : String)
    (calls : List Call) (hno : ∀ now value, Call.Set now key value ∉ calls) :
    ((refCache index expiresIn).run refCodec emptyWorld calls).store.lookup index key
      = none := by
  apply run_keeps (refCache index expiresIn) refCodec
    (fun w => w.store.lookup index key = none) calls emptyWorld
  · intro c hc w1 h1
    apply ref_call_keeps index expiresIn (fun s => s.lookup index key = none) c w1
    · intro now other value hset
      have hne : other ≠ key := by
        intro heq
        apply hno now value
        rw [← heq, ← hset]
        exact hc
      exact Store.lookup_upsert_other _ _ _ _ _ _ hne h1
    · intro f
      exact Store.lookup_delete_none _ _ _ _ _ h1
    · exact h1
  · rfl

/-! ## Round trip on the routed reference backend -/

/-- The generated identifier is longer than every stored one. -/
theorem Store.length_lt_freshId (s : Store) (d : StoredDoc) (hd : d ∈ s) :
    d.id.length < s.freshId.length := by
  have hlen : s.freshId.length = 5 + (s.flatMap (fun d => d.id.data)).length := by
    show ("auto-".data ++ s.flatMap (fun d => d.id.data)).length = _
    rw [List.length_append]
    rfl
  have hsum : d.id.length ≤ (s.flatMap (fun d => d.id.data)).length := by
    clear hlen
    induction s with
    | nil => cases hd
    | cons a rest ih =>
      rw [List.flatMap_cons, List.length_append]
      rcases List.mem_cons.mp hd with h | h
      · subst h
        show d.id.data.length ≤ _
        omega
      · have := ih h
        omega
  omega

/-- The generated identifier is the identifier of no stored document. -/
theorem Store.freshId_fresh (s : Store) (d : StoredDoc) (hd : d ∈ s) : d.id ≠ s.freshId := by
  intro h
  have := Store.length_lt_freshId s d hd
  rw [h] at this
  exact lt_irrefl _ this

/-- On the routed backend a delete-by-query returns nil and removes the
selected documents of the adapter's index. -/
theorem routed_deleteByQuery (route : String → Route) (index : String)
    (expiresIn : Duration) (w : World Store) (query : Query) (f : documentObject → Bool)
    (hq : queryFilter query = some f) :
    (routedCache route index expiresIn).deleteByQuery refCodec w query
      = (Outcome.returned none, w.withStore (w.store.delete [index] f)) := by
  simp [elasticCache.deleteByQuery, deleteByQueryGo, routedCache, routedClient, refCodec,
    refClient, hq, writeOK, Response.IsError, WaitGroup.Wait, WaitGroup.Add, WaitGroup.Done]

/-- On the routed backend `Get` returns "Not found" when no document has
the key, the value of the first one when it is not older than `ExpiresIn`,
and otherwise "Cache expired" after deleting the documents with that key. -/
theorem routed_Get (route : String → Route) (index : String) (expiresIn : Duration)
    (now : Time) (w : World Store) (key : String) :
    (routedCache route index expiresIn).Get refCodec now w key =
      match w.store.lookup index key with
      | none => (Outcome.returned ("", some ⟨"Not found"⟩), w)
      | some src =>
        if Time.Sub now src.CreatedAt ≤ expiresIn then (Outcome.returned (src.Value, none), w)
        else (Outcome.returned ("", some ⟨"Cache expired"⟩),
          w.withStore (w.store.delete [index] (fun d => decide (d.Key = src.Key)))) := by
  have hfind : (routedCache route index expiresIn).find refCodec w key =
      match w.store.lookup index key with
      | some src => (Outcome.returned (some src, none), w)
      | none => (Outcome.returned (none, some ⟨"Not found"⟩), w) := by
    simp only [elasticCache.find, routedCache, routedClient, refCodec, refClient,
      queryFilter_matchQuery, searchOK, Response.IsError, findDecode, Store.hitsOf,
      Store.lookup, World.withStore_store]
    cases h : List.filter (fun d => decide (d.index = index) && decide (d.source.Key = key))
      w.store with
    | nil => simp
    | cons d rest => simp
  unfold elasticCache.Get
  rw [hfind]
  cases h : w.store.lookup index key with
  | none => simp
  | some src =>
    simp only [isExpired_some, elasticCache.Clear]
    rw [routed_deleteByQuery route index expiresIn w _ _ (queryFilter_matchQuery src.Key)]
    by_cases hage : Time.Sub now src.CreatedAt ≤ expiresIn
    · simp [hage, routedCache]
    · simp [hage, routedCache]

/-- On the routed backend `Set` of a non-empty key that is routed to a
document identifier returns nil and stores the entry under it. -/
theorem routed_Set_put (route : String → Route) (index : String) (expiresIn : Duration)
    (now : Time) (w : World Store) (key value docId : String)
    (hk : key ≠ "") (hroute : route key = Route.put docId) :
    (routedCache route index expiresIn).Set refCodec now w key value
      = (Outcome.returned none,
          w.withStore (w.store.upsert index docId ⟨key, value, now⟩)) := by
  simp [elasticCache.Set, routedCache, routedClient, refCodec, hk, hroute, WaitGroup.Wait,
    WaitGroup.Add, WaitGroup.Done]

/-- What `Set` leaves in the routed backend: nothing new, a new document
for the empty key, or the entry under the identifier its key is routed
to. -/
theorem routed_Set_store (route : String → Route) (index : String) (expiresIn : Duration)
    (now : Time) (w : World Store) (key value : String) :
    ((routedCache route index expiresIn).Set refCodec now w key value).2.store = w.store ∨
    (key = "" ∧ ((routedCache route index expiresIn).Set refCodec now w key value).2.store
      = w.store ++ [⟨index, w.store.freshId, ⟨key, value, now⟩⟩]) ∨
    (∃ docId, key ≠ "" ∧ route key = Route.put docId ∧
      ((routedCache route index expiresIn).Set refCodec now w key value).2.store
        = w.store.upsert index docId ⟨key, value, now⟩) := by
  by_cases hk : key = ""
  · right; left
    refine ⟨hk, ?_⟩
    simp [elasticCache.Set, routedCache, routedClient, refCodec, hk, WaitGroup.Wait,
      WaitGroup.Add, WaitGroup.Done, World.withStore]
  · rcases hroute : route key with docId | err | res
    · right; right
      refine ⟨docId, hk, rfl, ?_⟩
      rw [routed_Set_put route index expiresIn now w key value docId hk hroute]
      rfl
    · left
      simp [elasticCache.Set, routedCache, routedClient, refCodec, hk, hroute,
        World.withStore, World.Println]
    · left
      simp [elasticCache.Set, routedCache, routedClient, refCodec, hk, hroute,
        WaitGroup.Wait, WaitGroup.Add, WaitGroup.Done, World.withStore]

/-- Every call on the routed backend keeps each document with a non-empty
key under the identifier its key is routed to. -/
theorem routed_call_routed (route : String → Route) (index : String) (expiresIn : Duration)
    (c : Call) (w : World Store) (h : w.store.routed route index) :
    ((routedCache route index expiresIn).call refCodec w c).store.routed route index := by
  have hdel : ∀ f, (w.store.delete [index] f).routed route index := fun f d hd hi =>
    h d (List.mem_of_mem_filter hd) hi
  cases c with
  | Set now key value =>
    simp only [elasticCache.call]
    rcases routed_Set_store route index expiresIn now w key value with
      h1 | ⟨hk, h1⟩ | ⟨docId, hk, hroute, h1⟩
    · rw [h1]; exact h
    · rw [h1]
      intro d hd hi
      rcases List.mem_append.mp hd with hd | hd
      · exact h d hd hi
      · rw [List.mem_singleton.mp hd]
        exact Or.inl hk
    · rw [h1]
      intro d hd hi
      rcases List.mem_append.mp hd with hd | hd
      · exact h d (List.mem_of_mem_filter hd) hi
      · rw [List.mem_singleton.mp hd]
        exact Or.inr hroute
  | Get now key =>
    simp only [elasticCache.call, routed_Get]
    cases w.store.lookup index key with
    | none => exact h
    | some src =>
      by_cases hage : Time.Sub now src.CreatedAt ≤ expiresIn
      · simpa [hage] using h
      · simpa [hage, World.withStore] using hdel _
  | IsValid now key =>
    simp only [elasticCache.call, elasticCache.IsValid, routed_Get]
    cases w.store.lookup index key with
    | none => simpa using h
    | some src =>
      by_cases hage : Time.Sub now src.CreatedAt ≤ expiresIn
      · by_cases hv : src.Value = "" <;> simpa [hage, hv] using h
      · simpa [hage, World.withStore] using hdel _
  | Clear key =>
    simp only [elasticCache.call, elasticCache.Clear,
      routed_deleteByQuery route index expiresIn w _ _ (queryFilter_matchQuery key)]
    exact hdel (fun d => decide (d.Key = key))
  | ClearPrefix keyPrefix =>
    simp only [elasticCache.call, elasticCache.ClearPrefix,
      routed_deleteByQuery route index expiresIn w _ _ (queryFilter_prefixQuery keyPrefix)]
    exact hdel (fun d => startsWith d.Key keyPrefix)
  | ClearAll =>
    simp only [elasticCache.call, elasticCache.ClearAll,
      routed_deleteByQuery route index expiresIn w _ _ queryFilter_matchAllQuery]
    exact hdel (fun _ => true)

/-- Every history from the empty index on the routed backend keeps each
document with a non-empty key under the identifier its key is routed to. -/
theorem routed_run_routed (route : String → Route) (index : String) (expiresIn : Duration)
    (calls : List Call) :
    ((routedCache route index expiresIn).run refCodec emptyWorld calls).store.routed
      route index := by
  apply run_keeps (routedCache route index expiresIn) refCodec
    (fun w => w.store.routed route index) calls emptyWorld
  · intro c _ w1 h1
    exact routed_call_routed route index expiresIn c w1 h1
  · intro d hd
    simp [emptyWorld] at hd

/-- After an upsert under the identifier a non-empty key is routed to, the
entry is the one found for the key. -/
theorem Store.lookup_upsert_routed (s : Store) (route : String → Route)
    (index key value docId : String) (now : Time)
    (hk : key ≠ "") (hroute : route key = Route.put docId) (h : s.routed route index) :
    (s.upsert index docId ⟨key, value, now⟩).lookup index key = some ⟨key, value, now⟩ := by
  have : List.filter (fun d => decide (d.index = index) && decide (d.source.Key = key))
      (List.filter (fun d => !(decide (d.index = index ∧ d.id = docId))) s) = [] := by
    rw [List.filter_filter, List.filter_eq_nil_iff]
    intro d hd
    by_cases hi : d.index = index <;> by_cases hkey : d.source.Key = key
    · have hid : d.id = docId := by
        rcases h d hd hi with h0 | h0
        · exact absurd (hkey ▸ h0) hk
        · rw [hkey, hroute] at h0
          exact (Route.put.inj h0).symm
      simp [hi, hkey, hid]
    · simp [hi, hkey]
    · simp [hi, hkey]
    · simp [hi, hkey]
  unfold Store.lookup Store.upsert
  rw [List.filter_append, this]
  simp

/-- C1, as the code has it: on the routed reference backend, after any
history of calls, for every non-empty key `k` that the client routes to a
document identifier and every value `v` (a Unicode text, that is a Go
string that is valid UTF-8), `Set(k, v)` at the instant `t0` returns nil
and a `Get(k)` that follows at an instant `now` with
`now - t0 ≤ ExpiresIn` returns `(v, nil)`. -/
theorem Set_Get_roundtrip (route : String → Route) (index : String) (expiresIn : Duration)
    (calls : List Call) (k v docId : String) (t0 now : Time)
    (hk : k ≠ "") (hroute : route k = Route.put docId)
    (hmin : minDuration ≤ expiresIn) (hage : now - t0 ≤ expiresIn) :
    ((routedCache route index expiresIn).Set refCodec t0
        ((routedCache route index expiresIn).run refCodec emptyWorld calls) k v).1
      = Outcome.returned none ∧
    ((routedCache route index expiresIn).Get refCodec now
        ((routedCache route index expiresIn).Set refCodec t0
          ((routedCache route index expiresIn).run refCodec emptyWorld calls) k v).2 k).1
      = Outcome.returned (v, none) := by
  have hsub : Time.Sub now t0 ≤ expiresIn := by
    unfold Time.Sub
    unfold maxDuration minDuration Time Duration at *
    split_ifs <;> omega
  rw [routed_Set_put route index expiresIn t0 _ k v docId hk hroute, routed_Get]
  refine ⟨rfl, ?_⟩
  simp only [World.withStore]
  rw [Store.lookup_upsert_routed _ route index k v docId t0 hk hroute
    (routed_run_routed route index expiresIn calls)]
  simp [hsub]

/-- The round trip of the test: `Set("foo", "bar")` at instant 0 and
`Get("foo")` one second later, with `ExpiresIn` of 10 seconds, after
earlier calls that include a `Set` of the empty key. -/
theorem Set_Get_roundtrip_witness :
    ((routedCache Route.put "example" (10 * Second)).Get refCodec (1 * Second)
        ((routedCache Route.put "example" (10 * Second)).Set refCodec 0
          ((routedCache Route.put "example" (10 * Second)).run refCodec emptyWorld
            [Call.Set (-5) "foo" "old", Call.Set (-4) "" "x", Call.ClearPrefix "k",
             Call.Set (-3) "kitty" "hello"])
          "foo" "bar").2 "foo").1
      = Outcome.returned ("bar", none) :=
  (Set_Get_roundtrip Route.put "example" (10 * Second)
    [Call.Set (-5) "foo" "old", Call.Set (-4) "" "x", Call.ClearPrefix "k",
     Call.Set (-3) "kitty" "hello"]
    "foo" "bar" "foo" 0 (1 * Second) (by decide) rfl (by decide) (by decide)).2

/-- C1 fails as stated. With the empty key the client sends a `POST`,
which creates a new document each time: after `Set("", "old")` and
`Set("", "new")`, both returning nil, `Get("")` finds two documents and
returns the first, `"old"`. With the value `"\xff"`, one byte that is not
valid UTF-8, `json.Marshal` writes the text U+FFFD, so `Get` returns the
three bytes `EF BF BD` and not the byte set. -/
theorem Set_Get_stale_or_rewritten :
    ((routedCache Route.put "example" (10 * Second)).Set refCodec 0 emptyWorld "" "old").1
      = Outcome.returned none ∧
    ((routedCache Route.put "example" (10 * Second)).Set refCodec 1
        ((routedCache Route.put "example" (10 * Second)).Set refCodec 0 emptyWorld
          "" "old").2 "" "new").1
      = Outcome.returned none ∧
    ((routedCache Route.put "example" (10 * Second)).Get refCodec 2
        ((routedCache Route.put "example" (10 * Second)).Set refCodec 1
          ((routedCache Route.put "example" (10 * Second)).Set refCodec 0 emptyWorld
            "" "old").2 "" "new").2 "").1
      = Outcome.returned ("old", none) ∧
    ((routedCache Route.put "example" (10 * Second)).Get refCodec 1
        ((routedCache Route.put "example" (10 * Second)).Set refCodec 0 emptyWorld
          "k" (jsonText [0xFF])).2 "k").1
      = Outcome.returned ("\uFFFD", none) ∧
    utf8Bytes "\uFFFD" = [0xEF, 0xBF, 0xBD] ∧
    (([0xEF, 0xBF, 0xBD] : List UInt8) = [0xFF]) = False := by
  refine ⟨by decide, by decide, by decide, by decide, by decide, by decide⟩

/-! ## Invalidation on the reference backend -/

/-- C2: on the reference backend, `IsValid(k)` is false after every history
from the empty index in which no `Set(k, _)` occurs, and `IsValid(k)` is
false after `Set(k, v)` followed by `Clear(k)`, both of which return nil,
whatever the store held before and whatever `v` is. -/
theorem IsValid_false_without_entry (index : String) (expiresIn : Duration) (now : Time)
    (k : String) :
    (∀ calls : List Call, (∀ t v, Call.Set t k v ∉ calls) →
      ((refCache index expiresIn).IsValid refCodec now
        ((refCache index expiresIn).run refCodec emptyWorld calls) k).1
        = Outcome.returned false) ∧
    (∀ (w : World Store) (t0 : Time) (v : String),
      ((refCache index expiresIn).Set refCodec t0 w k v).1 = Outcome.returned none ∧
      ((refCache index expiresIn).Clear refCodec
        ((refCache index expiresIn).Set refCodec t0 w k v).2 k).1 = Outcome.returned none ∧
      ((refCache index expiresIn).IsValid refCodec now
        ((refCache index expiresIn).Clear refCodec
          ((refCache index expiresIn).Set refCodec t0 w k v).2 k).2 k).1
        = Outcome.returned false) := by
  constructor
  · intro calls hno
    rw [ref_IsValid, ref_run_lookup_none index expiresIn k calls hno]
  · intro w t0 v
    simp only [elasticCache.Clear, ref_Set,
      ref_deleteByQuery index expiresIn _ _ _ (queryFilter_matchQuery k), ref_IsValid,
      World.withStore]
    refine ⟨trivial, trivial, ?_⟩
    rw [Store.lookup_delete_selected _ _ _ _ (fun d hd => by simp [hd])]

/-- The scenario of the test: `Set("foo", "bar")`, `Clear("foo")`, then
`IsValid("foo")` is false. -/
theorem IsValid_false_without_entry_witness :
    ((refCache "example" (10 * Second)).IsValid refCodec (2 * Second)
      ((refCache "example" (10 * Second)).Clear refCodec
        ((refCache "example" (10 * Second)).Set refCodec 0 emptyWorld "foo" "bar").2
        "foo").2 "foo").1
      = Outcome.returned false :=
  ((IsValid_false_without_entry "example" (10 * Second) (2 * Second) "foo").2
    emptyWorld 0 "bar").2.2

/-- C3: on the reference backend, for every store and prefix `p`,
`ClearPrefix(p)` returns nil; afterwards `Get(k)` fails with "Not found"
for every key `k` that starts with `p`, and for every key `k` that does not
start with `p`, `Get(k)` returns what it returned before the call. -/
theorem ClearPrefix_removes_exactly (index : String) (expiresIn : Duration)
    (w : World Store) (p : String) (now : Time) :
    ((refCache index expiresIn).ClearPrefix refCodec w p).1 = Outcome.returned none ∧
    (∀ k, startsWith k p = true →
      ((refCache index expiresIn).Get refCodec now
        ((refCache index expiresIn).ClearPrefix refCodec w p).2 k).1
        = Outcome.returned ("", some ⟨"Not found"⟩)) ∧
    (∀ k, startsWith k p = false →
      ((refCache index expiresIn).Get refCodec now
        ((refCache index expiresIn).ClearPrefix refCodec w p).2 k).1
        = ((refCache index expiresIn).Get refCodec now w k).1) := by
  simp only [elasticCache.ClearPrefix,
    ref_deleteByQuery index expiresIn w _ _ (queryFilter_prefixQuery p), ref_Get, World.withStore]
  refine ⟨trivial, ?_, ?_⟩
  · intro k hk
    rw [Store.lookup_delete_selected _ _ _ _ (fun d hd => by rw [hd]; exact hk)]
  · intro k hk
    rw [Store.lookup_delete_other _ _ _ _ (fun d hd => by rw [hd]; exact hk)]
    cases w.store.lookup index k with
    | none => rfl
    | some src =>
      by_cases hage : Time.Sub now src.CreatedAt ≤ expiresIn <;> simp [hage]

/-- The scenario of the test: with `"hello"`, `"heli"` and `"kitty"` set,
`ClearPrefix("hel")` leaves `"hello"` and `"heli"` not found and `"kitty"`
retrievable with its value `"hello"`. -/
theorem ClearPrefix_removes_exactly_witness :
    ((refCache "example" (10 * Second)).Get refCodec (2 * Second)
      ((refCache "example" (10 * Second)).ClearPrefix refCodec
        ((refCache "example" (10 * Second)).run refCodec emptyWorld
          [Call.Set 0 "hello" "world", Call.Set 0 "heli" "copter", Call.Set 0 "kitty" "hello"])
        "hel").2 "hello").1 = Outcome.returned ("", some ⟨"Not found"⟩) ∧
    ((refCache "example" (10 * Second)).Get refCodec (2 * Second)
      ((refCache "example" (10 * Second)).ClearPrefix refCodec
        ((refCache "example" (10 * Second)).run refCodec emptyWorld
          [Call.Set 0 "hello" "world", Call.Set 0 "heli" "copter", Call.Set 0 "kitty" "hello"])
        "hel").2 "heli").1 = Outcome.returned ("", some ⟨"Not found"⟩) ∧
    ((refCache "example" (10 * Second)).Get refCodec (2 * Second)
      ((refCache "example" (10 * Second)).ClearPrefix refCodec
        ((refCache "example" (10 * Second)).run refCodec emptyWorld
          [Call.Set 0 "hello" "world", Call.Set 0 "heli" "copter", Call.Set 0 "kitty" "hello"])
        "hel").2 "kitty").1 = Outcome.returned ("hello", none) :=
  ⟨(ClearPrefix_removes_exactly "example" (10 * Second) _ "hel" (2 * Second)).2.1
      "hello" (by decide),
   (ClearPrefix_removes_exactly "example" (10 * Second) _ "hel" (2 * Second)).2.1
      "heli" (by decide),
   ((ClearPrefix_removes_exactly "example" (10 * Second) _ "hel" (2 * Second)).2.2
      "kitty" (by decide)).trans (by decide)⟩

/-- C4: on the reference backend, for every store, `ClearAll()` returns
nil and leaves no document in the adapter's index, so that `Get(k)` returns
the empty value with the "Not found" error for every key `k`; a second
`ClearAll()` returns nil and leaves the world as it was. -/
theorem ClearAll_empties_idempotent (index : String) (expiresIn : Duration)
    (w : World Store) (now : Time) :
    ((refCache index expiresIn).ClearAll refCodec w).1 = Outcome.returned none ∧
    (∀ d ∈ ((refCache index expiresIn).ClearAll refCodec w).2.store, d.index ≠ index) ∧
    (∀ k, (refCache index expiresIn).Get refCodec now
        ((refCache index expiresIn).ClearAll refCodec w).2 k
        = (Outcome.returned ("", some ⟨"Not found"⟩),
            ((refCache index expiresIn).ClearAll refCodec w).2)) ∧
    (refCache index expiresIn).ClearAll refCodec
        ((refCache index expiresIn).ClearAll refCodec w).2
      = (Outcome.returned none, ((refCache index expiresIn).ClearAll refCodec w).2) := by
  simp only [elasticCache.ClearAll,
    ref_deleteByQuery index expiresIn _ _ _ queryFilter_matchAllQuery, ref_Get, World.withStore]
  refine ⟨trivial, ?_, ?_, ?_⟩
  · intro d hd
    simpa [Store.delete] using (List.mem_filter.mp hd).2
  · intro k
    rw [Store.lookup_delete_selected _ _ _ _ (fun _ _ => rfl)]
  · have : (w.store.delete [index] (fun _ => true)).delete [index] (fun _ => true)
        = w.store.delete [index] (fun _ => true) := by
      simp [Store.delete, List.filter_filter]
    rw [this]

end GoCache
